import Mathlib

/-!
Shallow embedding of the pybb forum data model (`pybb/models/base.py`):
posts, topics, forums, denormalized counters, moderation state,
read trackers and polls, together with proofs about them.
Timestamps are natural numbers, database row sets are lists, and the
framework's exception-raising lookups are `Option`-valued.
-/

namespace Pybb

/-- Moderation enum value `BaseTopic.MODERATION_IS_CLEAN`. -/
def MODERATION_IS_CLEAN : Nat := 0

/-- Moderation enum value `BaseTopic.MODERATION_IS_IN_MODERATION`. -/
def MODERATION_IS_IN_MODERATION : Nat := 1

/-- Moderation enum value `BaseTopic.MODERATION_HAS_POSTS_IN_MODERATION`. -/
def MODERATION_HAS_POSTS_IN_MODERATION : Nat := 2

/-- A row of the `BasePost` model: the fields read by the counter,
moderation and soft-deletion logic. -/
structure Post where
  id : Nat
  userId : Nat
  created : Nat
  updated : Option Nat
  on_moderation : Bool
  deleted : Bool
deriving DecidableEq, Repr

/-- A row of the `BaseTopic` model: the fields read by the counter,
visibility and read-tracking logic. -/
structure Topic where
  id : Nat
  forumId : Nat
  deleted : Bool
  redirect : Bool
  on_moderation : Nat
  post_count : Int
  member_count : Int
  updated : Option Nat
  first_post_id : Option Nat
  last_post_id : Option Nat
deriving DecidableEq, Repr

/-- `PostQuerySetMixin.visible(join=False)`: a post row passes the filter
`on_moderation=False, deleted=False`. -/
def Post.visible (p : Post) : Bool :=
  !p.on_moderation && !p.deleted

/-- `TopicQuerySetMixin.visible`: `filter(deleted=False, redirect=False)`
then `exclude(on_moderation=MODERATION_IS_IN_MODERATION)`. -/
def Topic.visible (t : Topic) : Bool :=
  !t.deleted && !t.redirect && !(t.on_moderation == MODERATION_IS_IN_MODERATION)

/-- The row with the smallest `created` among `p` and `l`, keeping the
earlier row on ties: `order_by('created')[0]` with accumulator `p`. -/
def minByCreated (p : Post) : List Post → Post
  | [] => p
  | r :: rest => minByCreated (if r.created < p.created then r else p) rest

/-- `BaseTopic.get_first_post(force_refresh=True)`: the first row of the
topic's posts (deleted and moderated ones included) ordered by `created`,
or `None` when the topic has no posts. -/
def firstPostOfList : List Post → Option Post
  | [] => none
  | p :: rest => some (minByCreated p rest)

/-- The `Greatest('created', 'updated')` annotation of
`BaseTopic.get_last_post`; a null `updated` contributes nothing. -/
def Post.lastSaved (p : Post) : Nat :=
  max p.created (p.updated.getD p.created)

/-- Fold selecting the row with the largest `last_saved`, keeping the
earlier row on ties: descending ordering, first row. -/
def maxByLastSaved (p : Post) (l : List Post) : Post :=
  l.foldl (fun q r => if q.lastSaved < r.lastSaved then r else q) p

/-- `BaseTopic.get_last_post`: first row of the topic's visible
(`join=False`) posts ordered by `Greatest('created','updated')`
descending, or `None` when there is none. -/
def lastPostOfList (posts : List Post) : Option Post :=
  match posts.filter Post.visible with
  | [] => none
  | p :: rest => some (maxByLastSaved p rest)

/-- `BaseTopic.update_counters(commit, update_forum)` restricted to the
topic row itself: recomputes `post_count`, `member_count`, `updated`,
`last_post`, `first_post` and `on_moderation` from the topic's posts.
The `save` and the recursive `forum.update_counters` calls are modelled
separately by the signal traces below. -/
def Topic.update_counters (t : Topic) (posts : List Post) : Topic :=
  let visiblePosts := posts.filter Post.visible
  let post_count := visiblePosts.length
  let member_count := (visiblePosts.map Post.userId).dedup.length
  let t1 :=
    match lastPostOfList posts with
    | some lp => { t with updated := some (lp.updated.getD lp.created),
                          last_post_id := some lp.id }
    | none => t
  let fp := firstPostOfList posts
  let t2 :=
    match fp with
    | some p => { t1 with first_post_id := some p.id }
    | none => t1
  let on_mod :=
    if (posts.filter fun p => p.on_moderation && !p.deleted).length ≠ 0 then
      match fp with
      | some p =>
        if post_count = 0 || p.on_moderation then MODERATION_IS_IN_MODERATION
        else MODERATION_HAS_POSTS_IN_MODERATION
      | none => MODERATION_IS_IN_MODERATION
        -- unreachable: a post passing the moderation filter forces the
        -- post list to be nonempty, so `fp` is `some`.
    else MODERATION_IS_CLEAN
  { t2 with post_count := Int.ofNat post_count,
            member_count := Int.ofNat member_count,
            on_moderation := on_mod }

theorem visible_eq_decide (p : Post) :
    Post.visible p = decide (p.deleted = false ∧ p.on_moderation = false) := by
  cases hd : p.deleted <;> cases hm : p.on_moderation <;>
    simp [Post.visible, hd, hm]

/-- C1: after `BaseTopic.update_counters` runs, the topic's `post_count`
equals the number of its posts with `deleted = False` and
`on_moderation = False` (its visible posts), and its `member_count`
equals the number of distinct users among those visible posts. -/
theorem topic_update_counters_matches_visible_aggregates
    (t : Topic) (posts : List Post) :
    (t.update_counters posts).post_count =
      Int.ofNat
        (posts.filter fun p =>
          decide (p.deleted = false ∧ p.on_moderation = false)).length ∧
    (t.update_counters posts).member_count =
      Int.ofNat
        ((posts.filter fun p =>
          decide (p.deleted = false ∧ p.on_moderation = false)).map
            Post.userId).toFinset.card := by
  have hfilter :
      posts.filter Post.visible =
        posts.filter fun p =>
          decide (p.deleted = false ∧ p.on_moderation = false) := by
    apply List.filter_congr
    intro p _
    exact visible_eq_decide p
  constructor
  · simp only [Topic.update_counters, hfilter]
  · simp only [Topic.update_counters, hfilter, List.card_toFinset]

theorem update_counters_post_count (t : Topic) (posts : List Post) :
    (t.update_counters posts).post_count =
      Int.ofNat (posts.filter Post.visible).length := rfl

theorem update_counters_on_moderation (t : Topic) (posts : List Post) :
    (t.update_counters posts).on_moderation =
      (if (posts.filter fun p => p.on_moderation && !p.deleted).length ≠ 0 then
        match firstPostOfList posts with
        | some p =>
          if (posts.filter Post.visible).length = 0 || p.on_moderation then
            MODERATION_IS_IN_MODERATION
          else MODERATION_HAS_POSTS_IN_MODERATION
        | none => MODERATION_IS_IN_MODERATION
      else MODERATION_IS_CLEAN) := rfl

theorem moderated_length_ne_zero_iff (posts : List Post) :
    (posts.filter fun p => p.on_moderation && !p.deleted).length ≠ 0 ↔
      ∃ p ∈ posts, p.on_moderation = true ∧ p.deleted = false := by
  rw [Ne, List.length_eq_zero, List.filter_eq_nil_iff]
  push_neg
  constructor
  · rintro ⟨p, hp, hpred⟩
    refine ⟨p, hp, ?_⟩
    simpa using hpred
  · rintro ⟨p, hp, h1, h2⟩
    exact ⟨p, hp, by simp [h1, h2]⟩

/-- C3: after `BaseTopic.update_counters`, `on_moderation` is in exactly
one of the three enum states: clean when no non-deleted post is on
moderation; in-moderation when such posts exist and the visible post
count is zero or the topic's first post is on moderation;
has-moderated-posts when such posts exist, the visible post count is
non-zero and the first post is not on moderation. -/
theorem topic_moderation_state_trichotomy (t : Topic) (posts : List Post) :
    ((t.update_counters posts).on_moderation = MODERATION_IS_CLEAN ∨
      (t.update_counters posts).on_moderation = MODERATION_IS_IN_MODERATION ∨
      (t.update_counters posts).on_moderation =
        MODERATION_HAS_POSTS_IN_MODERATION) ∧
    ((t.update_counters posts).on_moderation = MODERATION_IS_CLEAN ↔
      ¬ ∃ p ∈ posts, p.on_moderation = true ∧ p.deleted = false) ∧
    ((t.update_counters posts).on_moderation = MODERATION_IS_IN_MODERATION ↔
      (∃ p ∈ posts, p.on_moderation = true ∧ p.deleted = false) ∧
        ((t.update_counters posts).post_count = 0 ∨
          ∃ fp, firstPostOfList posts = some fp ∧ fp.on_moderation = true)) ∧
    ((t.update_counters posts).on_moderation =
        MODERATION_HAS_POSTS_IN_MODERATION ↔
      (∃ p ∈ posts, p.on_moderation = true ∧ p.deleted = false) ∧
        (t.update_counters posts).post_count ≠ 0 ∧
        ∀ fp, firstPostOfList posts = some fp → fp.on_moderation = false) := by
  rw [update_counters_on_moderation, update_counters_post_count]
  by_cases hm : ∃ p ∈ posts, p.on_moderation = true ∧ p.deleted = false
  · rw [if_pos ((moderated_length_ne_zero_iff posts).mpr hm)]
    have ⟨p0, hp0, _⟩ := hm
    have hne : posts ≠ [] := List.ne_nil_of_mem hp0
    obtain ⟨q, rest, hq⟩ := List.exists_cons_of_ne_nil hne
    have hfp : firstPostOfList posts = some (minByCreated q rest) := by
      rw [hq]; rfl
    rw [hfp]
    by_cases h0 : (posts.filter Post.visible).length = 0
    · simp [h0, hm, hfp, MODERATION_IS_CLEAN, MODERATION_IS_IN_MODERATION,
        MODERATION_HAS_POSTS_IN_MODERATION]
    · cases hfm : (minByCreated q rest).on_moderation
      · simp [h0, hfm, hm, hfp, MODERATION_IS_CLEAN,
          MODERATION_IS_IN_MODERATION, MODERATION_HAS_POSTS_IN_MODERATION,
          Int.ofNat_eq_zero]
      · simp [h0, hfm, hm, hfp, MODERATION_IS_CLEAN,
          MODERATION_IS_IN_MODERATION, MODERATION_HAS_POSTS_IN_MODERATION]
  · rw [if_neg (fun h => hm ((moderated_length_ne_zero_iff posts).mp h))]
    simp [hm, MODERATION_IS_CLEAN, MODERATION_IS_IN_MODERATION,
      MODERATION_HAS_POSTS_IN_MODERATION]

/-- The stored denormalized fields of a `BaseForum` row that
`BaseForum.compute` reads and writes. -/
structure ForumFields where
  id : Nat
  post_count : Int
  member_count : Int
  topic_count : Int
  forum_count : Int
deriving DecidableEq, Repr

/-- A topic row together with its post rows. -/
structure TopicEntry where
  topic : Topic
  posts : List Post
deriving DecidableEq, Repr

/-- A forum row together with its direct topics and its child forums
(the tree that the `forum` parent pointer of `BaseForum` induces). -/
inductive ForumTree where
  | node (fields : ForumFields) (topics : List TopicEntry)
      (children : List ForumTree)
deriving Repr

/-- The forum's own stored fields. -/
def ForumTree.fields : ForumTree → ForumFields
  | .node f _ _ => f

/-- The forum's direct topics (`self.topics`). -/
def ForumTree.topics : ForumTree → List TopicEntry
  | .node _ ts _ => ts

/-- The forum's direct child forums (`self.forums`). -/
def ForumTree.children : ForumTree → List ForumTree
  | .node _ _ cs => cs

mutual

/-- Modelled from the spec: the `forum_ids` array field on a topic comes
from `pybb/models/mixins.py` (`ParentForumBase`), which is not among the
sources here; per the spec's tree of forums ("a Forum's counts must equal
the sum over its child forums and topics") it holds the ids of the
topic's forum and of all that forum's ancestors, so the filter
`topic__forum_ids__contains=[self.id]` selects exactly the topics of the
forum's subtree, own topics included. -/
def ForumTree.subtreeTopics : ForumTree → List TopicEntry
  | .node _ ts cs => ts ++ subtreeTopicsOf cs

/-- The concatenated subtree topics of a list of forums. -/
def subtreeTopicsOf : List ForumTree → List TopicEntry
  | [] => []
  | c :: cs => c.subtreeTopics ++ subtreeTopicsOf cs

end

/-- `PostQuerySetMixin.visible(join=True)` applied to a topic's posts:
the `join=False` post filter plus `topic__deleted=False` and
`topic__redirect=False` on the joined topic row. -/
def TopicEntry.visibleJoinPosts (e : TopicEntry) : List Post :=
  if !e.topic.deleted && !e.topic.redirect then e.posts.filter Post.visible
  else []

/-- `BaseForum.compute(commit)` restricted to the forum row itself:
recomputes the four denormalized counts from the stored counts of the
direct child forum rows, the stored counts of the visible direct topic
rows, and the distinct users of the visible posts of the subtree topics.
The `save` call and the recursive parent `compute` call are modelled by
the signal traces below. -/
def ForumTree.compute (ft : ForumTree) : ForumFields :=
  let forum_count := ft.children.length
  let member_count :=
    (((ft.subtreeTopics.map TopicEntry.visibleJoinPosts).flatten).map
      Post.userId).dedup.length
  let post_count :=
    ((ft.topics.filter fun e => e.topic.visible).map
      fun e => e.topic.post_count).sum
  let topic_count := (ft.topics.filter fun e => e.topic.visible).length
  let childSumPost := (ft.children.map fun c => c.fields.post_count).sum
  let childSumTopic := (ft.children.map fun c => c.fields.topic_count).sum
  let childSumForum := (ft.children.map fun c => c.fields.forum_count).sum
  { ft.fields with
      post_count := post_count + childSumPost,
      member_count := Int.ofNat member_count,
      topic_count := Int.ofNat topic_count + childSumTopic,
      forum_count := Int.ofNat forum_count + childSumForum }

/-- The member count claimed by C2 and the spec sentence "a Forum's
counts must equal the sum over its child forums and topics": the sum of
`member_count` over the forum's visible topics plus the sum of
`member_count` over its direct child forums. -/
def ForumTree.memberCountSumSpec (ft : ForumTree) : Int :=
  ((ft.topics.filter fun e => e.topic.visible).map
    fun e => e.topic.member_count).sum
    + (ft.children.map fun c => c.fields.member_count).sum

/-- A post by user 7 used in the C2 counterexample. -/
def c2Post (pid : Nat) : Post :=
  { id := pid, userId := 7, created := 0, updated := none,
    on_moderation := false, deleted := false }

/-- A visible topic with one member and one post, used in the C2
counterexample. -/
def c2Topic (tid : Nat) : Topic :=
  { id := tid, forumId := 1, deleted := false, redirect := false,
    on_moderation := 0, post_count := 1, member_count := 1,
    updated := none, first_post_id := none, last_post_id := none }

/-- A forum with two visible one-member topics whose single posts belong
to the same user 7. -/
def c2Forum : ForumTree :=
  .node { id := 1, post_count := 0, member_count := 0, topic_count := 0,
          forum_count := 0 }
    [⟨c2Topic 2, [c2Post 10]⟩, ⟨c2Topic 3, [c2Post 11]⟩] []

/-- C2 counterexample: on `c2Forum`, `compute` sets `member_count` to the
number of distinct posting users (here 1), while the sum of
`member_count` over the forum's child forums and visible topics is 2, so
`member_count` is not that sum. -/
theorem forum_member_count_not_sum_counterexample :
    ¬((c2Forum.compute).member_count = c2Forum.memberCountSumSpec) := by
  decide

theorem topic_visible_eq_decide (t : Topic) :
    Topic.visible t =
      decide (t.deleted = false ∧ t.redirect = false ∧
        t.on_moderation ≠ MODERATION_IS_IN_MODERATION) := by
  by_cases ho : t.on_moderation = MODERATION_IS_IN_MODERATION <;>
    cases hd : t.deleted <;> cases hr : t.redirect <;>
      simp [Topic.visible, hd, hr, ho]

/-- C2 amended: after `BaseForum.compute` runs, `post_count` equals the
sum of `post_count` over the forum's visible topics plus the sum of
`post_count` over its direct child forums, `topic_count` equals the
number of visible topics plus the sum of `topic_count` over the child
forums, `forum_count` equals the number of direct child forums plus the
sum of `forum_count` over the child forums, and `member_count` equals
the number of distinct users among the visible posts of the topics of
the forum's subtree (not a sum over child forums and topics). -/
theorem forum_compute_counts_amended (ft : ForumTree) :
    (ft.compute).post_count =
      ((ft.topics.filter fun e =>
        decide (e.topic.deleted = false ∧ e.topic.redirect = false ∧
          e.topic.on_moderation ≠ MODERATION_IS_IN_MODERATION)).map
            fun e => e.topic.post_count).sum
        + (ft.children.map fun c => c.fields.post_count).sum ∧
    (ft.compute).topic_count =
      Int.ofNat (ft.topics.filter fun e =>
        decide (e.topic.deleted = false ∧ e.topic.redirect = false ∧
          e.topic.on_moderation ≠ MODERATION_IS_IN_MODERATION)).length
        + (ft.children.map fun c => c.fields.topic_count).sum ∧
    (ft.compute).forum_count =
      Int.ofNat ft.children.length
        + (ft.children.map fun c => c.fields.forum_count).sum ∧
    (ft.compute).member_count =
      Int.ofNat
        ((ft.subtreeTopics.map TopicEntry.visibleJoinPosts).flatten.map
          Post.userId).toFinset.card := by
  have hfilter :
      (ft.topics.filter fun e => e.topic.visible) =
        ft.topics.filter fun e =>
          decide (e.topic.deleted = false ∧ e.topic.redirect = false ∧
            e.topic.on_moderation ≠ MODERATION_IS_IN_MODERATION) := by
    apply List.filter_congr
    intro e _
    exact topic_visible_eq_decide e.topic
  refine ⟨?_, ?_, ?_, ?_⟩
  · simp only [ForumTree.compute, hfilter]
  · simp only [ForumTree.compute, hfilter]
  · simp only [ForumTree.compute]
  · simp only [ForumTree.compute, List.card_toFinset]

/-- A user as the access-control code sees it: the three flags the
forum visibility logic reads. -/
structure User where
  is_authenticated : Bool
  is_staff : Bool
  is_superuser : Bool
deriving DecidableEq, Repr

/-- A forum row together with its chain of ancestor forums: `root` has a
null `forum_id`, `child` carries its parent forum. -/
inductive ForumNode where
  | root (id : Nat) (hidden : Bool) (staff : Bool)
  | child (id : Nat) (hidden : Bool) (staff : Bool) (parent : ForumNode)
deriving DecidableEq, Repr

/-- The forum's primary key. -/
def ForumNode.idOf : ForumNode → Nat
  | .root i _ _ => i
  | .child i _ _ _ => i

/-- The forum's own `hidden` flag. -/
def ForumNode.hiddenFlag : ForumNode → Bool
  | .root _ h _ => h
  | .child _ h _ _ => h

/-- `BaseForum.is_hidden`: the forum's own `hidden` flag, or, when the
forum has a parent, the parent's `is_hidden` (the source returns a
truthy or falsy value; the Bool here is its truthiness). -/
def ForumNode.is_hidden : ForumNode → Bool
  | .root _ h _ => h
  | .child _ h _ p => h || p.is_hidden

/-- `BaseForum.is_accessible_by(user, hidden)`: the forum is not
accessible when its parent is not accessible, when it is staff-only and
the user is not staff, or when the `hidden` argument is set, the forum
is hidden by itself or an ancestor and the user is not authenticated. -/
def ForumNode.is_accessible_by (u : User) (hidden : Bool) :
    ForumNode → Bool
  | .root i h s =>
      !(s && !u.is_staff) &&
        !(hidden && (ForumNode.root i h s).is_hidden &&
          !u.is_authenticated)
  | .child i h s p =>
      p.is_accessible_by u hidden &&
        (!(s && !u.is_staff) &&
          !(hidden && (ForumNode.child i h s p).is_hidden &&
            !u.is_authenticated))

/-- The forum's proper ancestors, nearest parent first. -/
def ForumNode.ancestors : ForumNode → List ForumNode
  | .root _ _ _ => []
  | .child _ _ _ p => p :: p.ancestors

/-- C4: a forum with a parent is not accessible whenever the parent is
not accessible (so accessibility propagates down the ancestor chain),
and `is_hidden` is truthy exactly when the forum's own hidden flag is
set or some ancestor forum's hidden flag is set. -/
theorem forum_accessibility_ancestor_chain
    (i : Nat) (h s : Bool) (p : ForumNode) (u : User) (hidden : Bool)
    (hp : p.is_accessible_by u hidden = false) :
    (ForumNode.child i h s p).is_accessible_by u hidden = false ∧
    ∀ g : ForumNode, g.is_hidden = true ↔
      (g.hiddenFlag = true ∨ ∃ a ∈ g.ancestors, a.hiddenFlag = true) := by
  constructor
  · simp [ForumNode.is_accessible_by, hp]
  · intro g
    induction g with
    | root j hj sj =>
      simp [ForumNode.is_hidden, ForumNode.hiddenFlag, ForumNode.ancestors]
    | child j hj sj q ih =>
      show (hj || q.is_hidden) = true ↔
        (hj = true ∨ ∃ a ∈ q :: q.ancestors, a.hiddenFlag = true)
      rw [Bool.or_eq_true, ih]
      constructor
      · rintro (h1 | h1 | ⟨a, ha, hfa⟩)
        · exact Or.inl h1
        · exact Or.inr ⟨q, List.mem_cons_self q q.ancestors, h1⟩
        · exact Or.inr ⟨a, List.mem_cons_of_mem _ ha, hfa⟩
      · rintro (h1 | ⟨a, ha, hfa⟩)
        · exact Or.inl h1
        · rcases List.mem_cons.mp ha with heq | hmem
          · exact Or.inr (Or.inl (heq ▸ hfa))
          · exact Or.inr (Or.inr ⟨a, hmem, hfa⟩)

/-- Witness for C4 at a staff-only parent and an anonymous user. -/
theorem forum_accessibility_ancestor_chain_witness :
    (ForumNode.child 2 false false
      (ForumNode.root 1 false true)).is_accessible_by
        ⟨false, false, false⟩ true = false ∧
    ∀ g : ForumNode, g.is_hidden = true ↔
      (g.hiddenFlag = true ∨ ∃ a ∈ g.ancestors, a.hiddenFlag = true) :=
  forum_accessibility_ancestor_chain 2 false false
    (ForumNode.root 1 false true) ⟨false, false, false⟩ true (by decide)

/-- The flags of a forum row that `ForumQuerySet.filter_by_user` reads. -/
structure ForumRow where
  id : Nat
  hidden : Bool
  staff : Bool
deriving DecidableEq, Repr

/-- `ForumQuerySet.filter_by_user(user, hidden)`: staff and superusers
see everything; authenticated users see all non-staff forums; anonymous
users additionally lose hidden forums when `hidden` is requested. -/
def filter_by_user (u : User) (hidden : Bool) (qs : List ForumRow) :
    List ForumRow :=
  if u.is_staff || u.is_superuser then qs
  else if u.is_authenticated then qs.filter fun f => !f.staff
  else if hidden then qs.filter fun f => !f.hidden && !f.staff
  else qs.filter fun f => !f.staff

/-- The staff-only restriction of `is_accessible_by` along the ancestor
chain, as the claim describes it: no forum in the chain is staff-only
unless the user is staff. -/
def ForumNode.staffAllowed (u : User) : ForumNode → Bool
  | .root _ _ s => !(s && !u.is_staff)
  | .child _ _ s p => p.staffAllowed u && !(s && !u.is_staff)

theorem is_accessible_by_of_authenticated (u : User) (hidden : Bool)
    (hauth : u.is_authenticated = true) (g : ForumNode) :
    g.is_accessible_by u hidden = g.staffAllowed u := by
  induction g with
  | root j hj sj =>
    simp [ForumNode.is_accessible_by, ForumNode.staffAllowed, hauth]
  | child j hj sj q ih =>
    simp [ForumNode.is_accessible_by, ForumNode.staffAllowed, hauth, ih]

/-- C8: hidden forums are hidden only from anonymous users. For an
authenticated non-staff non-superuser user `u`, `filter_by_user` keeps
exactly the forums with `staff = False` (hidden ones included), and
`is_accessible_by` reduces to the staff-only check along the ancestor
chain, ignoring all hidden flags; for an anonymous non-staff user `v`
with `hidden=True`, the filter keeps exactly the forums that are neither
hidden nor staff-only. -/
theorem hidden_forums_visible_to_authenticated
    (u v : User) (hidden : Bool) (qs : List ForumRow)
    (hauth : u.is_authenticated = true) (hstaff : u.is_staff = false)
    (hsuper : u.is_superuser = false)
    (hvanon : v.is_authenticated = false) (hvstaff : v.is_staff = false)
    (hvsuper : v.is_superuser = false) :
    filter_by_user u hidden qs = (qs.filter fun f => !f.staff) ∧
    (∀ f ∈ qs, f.staff = false → f ∈ filter_by_user u hidden qs) ∧
    (∀ g : ForumNode, g.is_accessible_by u hidden = g.staffAllowed u) ∧
    filter_by_user v true qs =
      (qs.filter fun f => !f.hidden && !f.staff) ∧
    (∀ f ∈ filter_by_user v true qs,
      f.hidden = false ∧ f.staff = false) := by
  have hu : filter_by_user u hidden qs = qs.filter fun f => !f.staff := by
    simp [filter_by_user, hauth, hstaff, hsuper]
  have hv : filter_by_user v true qs =
      qs.filter fun f => !f.hidden && !f.staff := by
    simp [filter_by_user, hvanon, hvstaff, hvsuper]
  refine ⟨hu, ?_, ?_, hv, ?_⟩
  · intro f hf hfs
    rw [hu]
    exact List.mem_filter.mpr ⟨hf, by simp [hfs]⟩
  · exact fun g => is_accessible_by_of_authenticated u hidden hauth g
  · intro f hf
    rw [hv] at hf
    have := (List.mem_filter.mp hf).2
    constructor
    · cases hfh : f.hidden
      · rfl
      · simp [hfh] at this
    · cases hfs : f.staff
      · rfl
      · simp [hfs] at this

/-- Witness for C8 with a hidden non-staff forum, an authenticated plain
user and an anonymous user. -/
theorem hidden_forums_visible_to_authenticated_witness :
    filter_by_user ⟨true, false, false⟩ true
        [{ id := 1, hidden := true, staff := false }] =
      ([{ id := 1, hidden := true, staff := false }].filter
        fun f => !f.staff) ∧
    (∀ f ∈ [{ id := 1, hidden := true, staff := false }], f.staff = false →
      f ∈ filter_by_user ⟨true, false, false⟩ true
        [{ id := 1, hidden := true, staff := false }]) ∧
    (∀ g : ForumNode,
      g.is_accessible_by ⟨true, false, false⟩ true =
        g.staffAllowed ⟨true, false, false⟩) ∧
    filter_by_user ⟨false, false, false⟩ true
        [{ id := 1, hidden := true, staff := false }] =
      ([{ id := 1, hidden := true, staff := false }].filter
        fun f => !f.hidden && !f.staff) ∧
    (∀ f ∈ filter_by_user ⟨false, false, false⟩ true
        [{ id := 1, hidden := true, staff := false }],
      f.hidden = false ∧ f.staff = false) :=
  hidden_forums_visible_to_authenticated
    ⟨true, false, false⟩ ⟨false, false, false⟩ true
    [{ id := 1, hidden := true, staff := false }]
    rfl rfl rfl rfl rfl rfl

/-- A recomputation call recorded while the save methods and signal
handlers run. -/
inductive Event where
  | topicUpdateCounters (topicId : Nat)
  | forumUpdateCounters (forumId : Nat)
  | forumCompute (forumId : Nat)
deriving DecidableEq, Repr

/-- The chain of `BaseForum.compute` calls: compute the forum itself,
then recurse to the parent while `self.forum_id and
self.forum_id != self.pk` holds. -/
def ForumNode.computeTrace : ForumNode → List Event
  | .root i _ _ => [.forumCompute i]
  | .child i _ _ p =>
      .forumCompute i :: (if p.idOf ≠ i then p.computeTrace else [])

/-- `BaseForum.update_counters`: refresh `updated`, `last_post` and
`last_topic`, then run `compute` (which climbs to the ancestors). -/
def ForumNode.updateCountersTrace (f : ForumNode) : List Event :=
  .forumUpdateCounters f.idOf :: f.computeTrace

/-- `BaseTopic.update_counters(update_forum)`: recompute the topic row,
then, when `update_forum` is set, run `update_counters` on the
containing forum. -/
def topicUpdateCountersTrace (topicId : Nat) (update_forum : Bool)
    (forum : ForumNode) : List Event :=
  Event.topicUpdateCounters topicId ::
    (if update_forum then forum.updateCountersTrace else [])

/-- `BasePost.save`: after the row is written it always runs
`self.topic.update_counters()` with the default `update_forum=True`. -/
def postSaveTrace (topicId : Nat) (forum : ForumNode) : List Event :=
  topicUpdateCountersTrace topicId true forum

/-- `ForumManager.post_save`: when the saved forum was just created and
has a parent (`instance.forum_id` truthy), run the parent's `compute`. -/
def forumPostSaveTrace (created : Bool) (parent : Option ForumNode) :
    List Event :=
  match parent with
  | some p => if created then p.computeTrace else []
  | none => []

/-- `ForumManager.post_delete`: when the deleted forum has a parent, run
the parent's `compute`. -/
def forumPostDeleteTrace (parent : Option ForumNode) : List Event :=
  match parent with
  | some p => p.computeTrace
  | none => []

/-- No forum row in the chain names itself as its parent, so the guard
`self.forum_id != self.pk` of `compute` never stops the recursion. -/
def ChainOk : ForumNode → Prop
  | .root _ _ _ => True
  | .child i _ _ p => p.idOf ≠ i ∧ ChainOk p

theorem computeTrace_contains_chain (f : ForumNode) (hok : ChainOk f) :
    ∀ a ∈ f :: f.ancestors, Event.forumCompute a.idOf ∈ f.computeTrace := by
  induction f with
  | root j hj sj =>
    intro a ha
    rcases List.mem_cons.mp ha with heq | hmem
    · subst heq; exact List.mem_cons_self _ _
    · simp [ForumNode.ancestors] at hmem
  | child j hj sj q ih =>
    intro a ha
    obtain ⟨hne, hq⟩ := hok
    have htr : (ForumNode.child j hj sj q).computeTrace =
        Event.forumCompute j :: q.computeTrace := by
      simp [ForumNode.computeTrace, hne]
    rw [htr]
    rcases List.mem_cons.mp ha with heq | hmem
    · subst heq; exact List.mem_cons_self _ _
    · exact List.mem_cons_of_mem _ (ih hq a hmem)

/-- C7: saving a post always triggers `update_counters` on its topic
and, through it, `update_counters`/`compute` on the containing forum and
every ancestor forum; the `post_save` handler of forums runs the
parent's `compute` on creation of a forum with a parent, and the
`post_delete` handler runs it on deletion. -/
theorem post_save_triggers_counter_recomputation
    (topicId : Nat) (forum p : ForumNode) (created : Bool)
    (hok : ChainOk forum) :
    Event.topicUpdateCounters topicId ∈ postSaveTrace topicId forum ∧
    Event.forumUpdateCounters forum.idOf ∈ postSaveTrace topicId forum ∧
    (∀ a ∈ forum :: forum.ancestors,
      Event.forumCompute a.idOf ∈ postSaveTrace topicId forum) ∧
    Event.forumCompute p.idOf ∈ forumPostSaveTrace true (some p) ∧
    forumPostSaveTrace created none = [] ∧
    Event.forumCompute p.idOf ∈ forumPostDeleteTrace (some p) := by
  have hhead : Event.forumCompute p.idOf ∈ p.computeTrace := by
    cases p <;> exact List.mem_cons_self _ _
  refine ⟨?_, ?_, ?_, ?_, rfl, ?_⟩
  · exact List.mem_cons_self _ _
  · simp [postSaveTrace, topicUpdateCountersTrace,
      ForumNode.updateCountersTrace]
  · intro a ha
    have := computeTrace_contains_chain forum hok a ha
    simp only [postSaveTrace, topicUpdateCountersTrace, if_pos,
      ForumNode.updateCountersTrace]
    exact List.mem_cons_of_mem _ (List.mem_cons_of_mem _ this)
  · simp only [forumPostSaveTrace, if_pos]
    exact hhead
  · exact hhead

/-- Witness for C7 at a two-level forum chain. -/
theorem post_save_triggers_counter_recomputation_witness :
    Event.topicUpdateCounters 5 ∈ postSaveTrace 5
        (ForumNode.child 2 false false (ForumNode.root 1 false false)) ∧
    Event.forumUpdateCounters
        (ForumNode.child 2 false false
          (ForumNode.root 1 false false)).idOf ∈
      postSaveTrace 5
        (ForumNode.child 2 false false (ForumNode.root 1 false false)) ∧
    (∀ a ∈ ForumNode.child 2 false false (ForumNode.root 1 false false) ::
        (ForumNode.child 2 false false
          (ForumNode.root 1 false false)).ancestors,
      Event.forumCompute a.idOf ∈
        postSaveTrace 5
          (ForumNode.child 2 false false (ForumNode.root 1 false false))) ∧
    Event.forumCompute (ForumNode.root 9 false false).idOf ∈
      forumPostSaveTrace true (some (ForumNode.root 9 false false)) ∧
    forumPostSaveTrace true none = [] ∧
    Event.forumCompute (ForumNode.root 9 false false).idOf ∈
      forumPostDeleteTrace (some (ForumNode.root 9 false false)) :=
  post_save_triggers_counter_recomputation 5
    (ForumNode.child 2 false false (ForumNode.root 1 false false))
    (ForumNode.root 9 false false) true ⟨by decide, trivial⟩

/-- A read-tracker row of one user: the tracked object's id (topic or
forum) and the tracker's `time_stamp`. -/
structure Tracker where
  objId : Nat
  time_stamp : Nat
deriving DecidableEq, Repr

/-- One user's read-tracking rows: `TopicReadTracker` and
`ForumReadTracker` rows of that user. -/
structure ReadState where
  topicTrackers : List Tracker
  forumTrackers : List Tracker
deriving DecidableEq, Repr

/-- The `ForumReadTracker.objects.get(forum=..., user=...)` lookup of
`mark_as_read`; the caught `ObjectDoesNotExist` of the source is the
`none` result, so a missing row never raises. -/
def lookupTracker : List Tracker → Nat → Option Nat
  | [], _ => none
  | e :: rest, objId =>
      if e.objId == objId then some e.time_stamp
      else lookupTracker rest objId

/-- The `read` queryset of `mark_as_read`: a topic joined with one of
the user's topic trackers satisfying `time_stamp__gt=F('updated')`; a
null `updated` never compares greater. -/
def topicIsRead (trk : List Tracker) (t : Topic) : Bool :=
  trk.any fun e => e.objId == t.id &&
    (match t.updated with
     | some u => decide (u < e.time_stamp)
     | none => false)

/-- The `unread` queryset of `mark_as_read`: topics of the forum that
are not read, restricted to `updated__gt=forum_mark.time_stamp` when a
forum tracker row exists. -/
def unreadTopics (topics : List Topic) (forumId : Nat)
    (trk : List Tracker) (forum_mark : Option Nat) : List Topic :=
  let unread := (topics.filter fun t => t.forumId == forumId).filter
    fun t => !topicIsRead trk t
  match forum_mark with
  | some ts => unread.filter fun t =>
      match t.updated with
      | some u => decide (ts < u)
      | none => false
  | none => unread

/-- The guard of the marking branch of `mark_as_read`:
`self.updated and (forum_mark is None or
forum_mark.time_stamp < self.updated)`. -/
def markCondition (t : Topic) (forum_mark : Option Nat) : Bool :=
  t.updated.isSome &&
    (match forum_mark, t.updated with
     | none, _ => true
     | some ts, some u => decide (ts < u)
     | some _, none => false)

/-- The `update`-then-`create` step of `mark_as_read` on the user's
topic trackers: refresh the topic's tracker rows to `now`, and create
one when the `update` touched no row. -/
def markTopicTracker (trk : List Tracker) (topicId now : Nat) :
    List Tracker :=
  let count := trk.countP fun e => e.objId == topicId
  let updated := trk.map fun e =>
    if e.objId == topicId then { e with time_stamp := now } else e
  if count = 0 then ⟨topicId, now⟩ :: updated else updated

/-- `BaseTopic.mark_as_read(user)` on one user's read-tracking state;
`topics` are all topic rows, `now` is `tznow()`. The subscription
`sent=False` reset touches no tracker row and is left out of the
state. -/
def Topic.mark_as_read (self : Topic) (topics : List Topic) (now : Nat)
    (st : ReadState) : ReadState :=
  let forum_mark := lookupTracker st.forumTrackers self.forumId
  if markCondition self forum_mark then
    let tt := markTopicTracker st.topicTrackers self.id now
    if (unreadTopics topics self.forumId tt forum_mark).isEmpty then
      let cleared := tt.filter fun e =>
        !(topics.any fun t => t.id == e.objId && t.forumId == self.forumId)
      let ft :=
        match forum_mark with
        | none => Tracker.mk self.forumId now :: st.forumTrackers
        | some _ => st.forumTrackers.map fun e =>
            if e.objId == self.forumId then { e with time_stamp := now }
            else e
      { topicTrackers := cleared, forumTrackers := ft }
    else { st with topicTrackers := tt }
  else st

theorem lookupTracker_refresh (l : List Tracker) (fid now : Nat)
    (h : (lookupTracker l fid).isSome = true) :
    lookupTracker
      (l.map fun e =>
        if e.objId == fid then { e with time_stamp := now } else e) fid =
      some now := by
  induction l with
  | nil => simp [lookupTracker] at h
  | cons e rest ih =>
    by_cases he : e.objId = fid
    · simp [lookupTracker, he]
    · simp only [lookupTracker, he, if_false, beq_iff_eq, if_neg he] at h
      simp only [List.map_cons, beq_iff_eq, if_neg he, lookupTracker]
      simpa using ih h

/-- C5: when `mark_as_read` takes its marking branch and the `unread`
queryset is then empty, it deletes every one of the user's per-topic
read trackers for topics of the topic's forum, and afterwards the
user's forum-level tracker carries timestamp `now`: it is newly created
when it was absent and refreshed in place when present. -/
theorem mark_as_read_clears_trackers_when_no_unread
    (self : Topic) (topics : List Topic) (now : Nat) (st : ReadState)
    (hmark : markCondition self
      (lookupTracker st.forumTrackers self.forumId) = true)
    (hunread : (unreadTopics topics self.forumId
      (markTopicTracker st.topicTrackers self.id now)
      (lookupTracker st.forumTrackers self.forumId)).isEmpty = true) :
    (∀ e ∈ (self.mark_as_read topics now st).topicTrackers,
      ¬ ∃ t ∈ topics, t.id = e.objId ∧ t.forumId = self.forumId) ∧
    lookupTracker (self.mark_as_read topics now st).forumTrackers
      self.forumId = some now ∧
    (lookupTracker st.forumTrackers self.forumId = none →
      (self.mark_as_read topics now st).forumTrackers =
        Tracker.mk self.forumId now :: st.forumTrackers) ∧
    (∀ ts, lookupTracker st.forumTrackers self.forumId = some ts →
      (self.mark_as_read topics now st).forumTrackers.length =
        st.forumTrackers.length) := by
  have hres : self.mark_as_read topics now st =
      { topicTrackers :=
          (markTopicTracker st.topicTrackers self.id now).filter fun e =>
            !(topics.any fun t =>
              t.id == e.objId && t.forumId == self.forumId),
        forumTrackers :=
          match lookupTracker st.forumTrackers self.forumId with
          | none => Tracker.mk self.forumId now :: st.forumTrackers
          | some _ => st.forumTrackers.map fun e =>
              if e.objId == self.forumId then { e with time_stamp := now }
              else e } := by
    rw [Topic.mark_as_read, if_pos hmark, if_pos hunread]
  refine ⟨?_, ?_, ?_, ?_⟩
  · intro e he
    rw [hres] at he
    have hany := (List.mem_filter.mp he).2
    rw [Bool.not_eq_true', List.any_eq_false] at hany
    rintro ⟨t, ht, h1, h2⟩
    exact hany t ht (by simp [h1, h2])
  · rw [hres]
    cases hfm : lookupTracker st.forumTrackers self.forumId with
    | none => simp [lookupTracker]
    | some ts =>
      exact lookupTracker_refresh st.forumTrackers self.forumId now
        (by rw [hfm]; rfl)
  · intro hfm
    rw [hres, hfm]
  · intro ts hfm
    rw [hres, hfm]
    simp

/-- The topic of the C5 and C6 witnesses: topic 1 in forum 4, last
updated at time 5. -/
def wTopic : Topic :=
  { id := 1, forumId := 4, deleted := false, redirect := false,
    on_moderation := 0, post_count := 0, member_count := 0,
    updated := some 5, first_post_id := none, last_post_id := none }

/-- Witness for C5: marking the only topic of forum 4 as read at time 10
with no pre-existing trackers clears the branch's hypotheses. -/
theorem mark_as_read_clears_trackers_when_no_unread_witness :
    (∀ e ∈ (wTopic.mark_as_read [wTopic] 10 ⟨[], []⟩).topicTrackers,
      ¬ ∃ t ∈ [wTopic], t.id = e.objId ∧ t.forumId = wTopic.forumId) ∧
    lookupTracker (wTopic.mark_as_read [wTopic] 10 ⟨[], []⟩).forumTrackers
      wTopic.forumId = some 10 ∧
    (lookupTracker (ReadState.mk [] []).forumTrackers wTopic.forumId =
        none →
      (wTopic.mark_as_read [wTopic] 10 ⟨[], []⟩).forumTrackers =
        Tracker.mk wTopic.forumId 10 :: (ReadState.mk [] []).forumTrackers) ∧
    (∀ ts, lookupTracker (ReadState.mk [] []).forumTrackers
        wTopic.forumId = some ts →
      (wTopic.mark_as_read [wTopic] 10 ⟨[], []⟩).forumTrackers.length =
        (ReadState.mk [] []).forumTrackers.length) :=
  mark_as_read_clears_trackers_when_no_unread wTopic [wTopic] 10
    ⟨[], []⟩ (by decide) (by decide)

theorem markTopicTracker_contains (trk : List Tracker)
    (topicId now : Nat) :
    ∃ e ∈ markTopicTracker trk topicId now,
      e.objId = topicId ∧ e.time_stamp = now := by
  by_cases hc : (trk.countP fun e => e.objId == topicId) = 0
  · exact ⟨⟨topicId, now⟩, by simp [markTopicTracker, hc], rfl, rfl⟩
  · have hpos : 0 < trk.countP fun e => e.objId == topicId :=
      Nat.pos_of_ne_zero hc
    obtain ⟨a, ha, hpa⟩ := List.countP_pos_iff.mp hpos
    have haid : a.objId = topicId := by simpa using hpa
    refine ⟨{ a with time_stamp := now }, ?_, haid, rfl⟩
    simp only [markTopicTracker, if_neg hc]
    exact List.mem_map.mpr ⟨a, ha, by simp [haid]⟩

/-- C6: a missing forum read-tracker row is treated as never read: the
source catches `ObjectDoesNotExist` around the forum-tracker lookup, so
the lookup is the total `none` case instead of an exception; the
marking guard then holds exactly when the topic's `updated` timestamp
is set, which is also the guard's value under any forum timestamp older
than every set `updated`; and in that case `mark_as_read`'s marking
step records a topic tracker for the topic at `now`. -/
theorem missing_forum_tracker_treated_as_never_read
    (self : Topic) (st : ReadState) (now : Nat)
    (hnone : lookupTracker st.forumTrackers self.forumId = none) :
    markCondition self (lookupTracker st.forumTrackers self.forumId) =
      self.updated.isSome ∧
    (∀ ts : Nat, (∀ u, self.updated = some u → ts < u) →
      markCondition self (some ts) = self.updated.isSome) ∧
    (self.updated.isSome = true →
      ∃ e ∈ markTopicTracker st.topicTrackers self.id now,
        e.objId = self.id ∧ e.time_stamp = now) := by
  rw [hnone]
  refine ⟨?_, ?_, ?_⟩
  · cases hu : self.updated <;> simp [markCondition, hu]
  · intro ts hts
    cases hu : self.updated with
    | none => simp [markCondition, hu]
    | some u => simp [markCondition, hu, hts u hu]
  · intro _
    exact markTopicTracker_contains st.topicTrackers self.id now

/-- Witness for C6: forum 4 has no tracker row in the empty state. -/
theorem missing_forum_tracker_treated_as_never_read_witness :
    markCondition wTopic
        (lookupTracker (ReadState.mk [] []).forumTrackers
          wTopic.forumId) = wTopic.updated.isSome ∧
    (∀ ts : Nat, (∀ u, wTopic.updated = some u → ts < u) →
      markCondition wTopic (some ts) = wTopic.updated.isSome) ∧
    (wTopic.updated.isSome = true →
      ∃ e ∈ markTopicTracker (ReadState.mk [] []).topicTrackers
          wTopic.id 10,
        e.objId = wTopic.id ∧ e.time_stamp = 10) :=
  missing_forum_tracker_treated_as_never_read wTopic ⟨[], []⟩ 10
    (by decide)

theorem minByCreated_eq_or_mem (l : List Post) :
    ∀ p, minByCreated p l = p ∨ minByCreated p l ∈ l := by
  induction l with
  | nil => intro p; exact Or.inl rfl
  | cons r rest ih =>
    intro p
    rcases ih (if r.created < p.created then r else p) with h | h
    · rw [minByCreated, h]
      split
      · exact Or.inr (List.mem_cons_self _ _)
      · exact Or.inl rfl
    · rw [minByCreated]
      exact Or.inr (List.mem_cons_of_mem _ h)

theorem minByCreated_le (l : List Post) :
    ∀ p, (minByCreated p l).created ≤ p.created ∧
      ∀ q ∈ l, (minByCreated p l).created ≤ q.created := by
  induction l with
  | nil =>
    intro p
    refine ⟨Nat.le_refl _, ?_⟩
    intro q hq
    simp at hq
  | cons r rest ih =>
    intro p
    have hstep1 :
        (if r.created < p.created then r else p).created ≤ p.created := by
      split
      · exact Nat.le_of_lt (by assumption)
      · exact Nat.le_refl _
    have hstep2 :
        (if r.created < p.created then r else p).created ≤ r.created := by
      split
      · exact Nat.le_refl _
      · exact Nat.le_of_not_lt (by assumption)
    obtain ⟨h1, h2⟩ := ih (if r.created < p.created then r else p)
    refine ⟨?_, ?_⟩
    · rw [minByCreated]
      exact Nat.le_trans h1 hstep1
    · intro q hq
      rw [minByCreated]
      rcases List.mem_cons.mp hq with heq | hmem
      · subst heq
        exact Nat.le_trans h1 hstep2
      · exact h2 q hmem

/-- The head-post query of `BasePost.mark_as_deleted`:
`self.topic.posts.visible(join=False).order_by('created')[0]`, with the
caught `IndexError` as the `none` case. -/
def headVisiblePost (posts : List Post) : Option Post :=
  firstPostOfList (posts.filter Post.visible)

theorem headVisiblePost_eq_none_iff (posts : List Post) :
    headVisiblePost posts = none ↔ posts.filter Post.visible = [] := by
  cases hf : posts.filter Post.visible with
  | nil => simp [headVisiblePost, firstPostOfList, hf]
  | cons f rest => simp [headVisiblePost, firstPostOfList, hf]

theorem headVisiblePost_spec (posts : List Post) (hp : Post)
    (h : headVisiblePost posts = some hp) :
    hp ∈ posts ∧ hp.visible = true ∧
      ∀ q ∈ posts, q.visible = true → hp.created ≤ q.created := by
  cases hf : posts.filter Post.visible with
  | nil => simp [headVisiblePost, firstPostOfList, hf] at h
  | cons f rest =>
    have hval : hp = minByCreated f rest := by
      have h2 : headVisiblePost posts = some (minByCreated f rest) := by
        rw [headVisiblePost, hf]
        rfl
      rw [h2] at h
      exact (Option.some_inj.mp h).symm
    subst hval
    have hmemf : minByCreated f rest ∈ posts.filter Post.visible := by
      rw [hf]
      rcases minByCreated_eq_or_mem rest f with h1 | h1
      · rw [h1]
        exact List.mem_cons_self _ _
      · exact List.mem_cons_of_mem _ h1
    have hmem' := List.mem_filter.mp hmemf
    obtain ⟨hle1, hle2⟩ := minByCreated_le rest f
    refine ⟨hmem'.1, hmem'.2, ?_⟩
    intro q hq hqv
    have hqf : q ∈ posts.filter Post.visible :=
      List.mem_filter.mpr ⟨hq, hqv⟩
    rw [hf] at hqf
    rcases List.mem_cons.mp hqf with heq | hmemq
    · subst heq
      exact hle1
    · exact hle2 q hmemq

/-- The bulk update `self.posts.visible(join=False).update(deleted=True)`
of `BaseTopic.mark_as_deleted`. -/
def topicMarkAsDeletedPosts (posts : List Post) : List Post :=
  posts.map fun q => if q.visible then { q with deleted := true } else q

/-- The database state that `BasePost.mark_as_deleted` writes: the
topic's `deleted` flag, the topic's post rows, and whether the
containing forum's `update_counters` ran. -/
structure MarkDeletedResult where
  topicDeleted : Bool
  posts : List Post
  forumUpdated : Bool
deriving DecidableEq, Repr

/-- `BasePost.mark_as_deleted(commit=True)` for the post with id
`selfId` in a topic with flag `topicDeleted` and post rows `posts`. The
in-memory `self.deleted = True` precedes every database write, so the
head-post query sees the rows as they were at the call; when the post
is the head visible post, `BaseTopic.mark_as_deleted` runs (topic flag,
bulk soft-delete of the visible posts, `forum.update_counters`) before
the post's own `update_fields` commit. The optional `PostDeletion`
audit row is not part of this state. -/
def Post.mark_as_deleted (topicDeleted : Bool) (posts : List Post)
    (selfId : Nat) : MarkDeletedResult :=
  let commitSelf := fun l : List Post => l.map fun q =>
    if q.id == selfId then { q with deleted := true } else q
  match headVisiblePost posts with
  | none =>
      { topicDeleted := topicDeleted, posts := commitSelf posts,
        forumUpdated := false }
  | some hp =>
      if selfId == hp.id then
        { topicDeleted := true,
          posts := commitSelf (topicMarkAsDeletedPosts posts),
          forumUpdated := true }
      else
        { topicDeleted := topicDeleted, posts := commitSelf posts,
          forumUpdated := false }

/-- The claim's "earliest-created visible post of its topic": a visible
post strictly earlier than every other visible post. -/
def isEarliestVisible (p : Post) (posts : List Post) : Prop :=
  p.visible = true ∧
    ∀ q ∈ posts, q.visible = true → q.id ≠ p.id → p.created < q.created

theorem head_is_self_iff (posts : List Post) (p : Post)
    (hmem : p ∈ posts)
    (hids : ∀ q1 ∈ posts, ∀ q2 ∈ posts, q1.id = q2.id → q1 = q2)
    (hcreated : ∀ q1 ∈ posts, ∀ q2 ∈ posts, q1.visible = true →
      q2.visible = true → q1.created = q2.created → q1 = q2) :
    (∃ hp, headVisiblePost posts = some hp ∧ p.id = hp.id) ↔
      isEarliestVisible p posts := by
  constructor
  · rintro ⟨hp, hhead, hid⟩
    obtain ⟨hpmem, hpvis, hpmin⟩ := headVisiblePost_spec posts hp hhead
    have hp_eq : hp = p := hids hp hpmem p hmem hid.symm
    subst hp_eq
    refine ⟨hpvis, ?_⟩
    intro q hq hqv hqid
    have hle := hpmin q hq hqv
    rcases Nat.lt_or_ge hp.created q.created with hlt | hge
    · exact hlt
    · have heqc : hp.created = q.created := Nat.le_antisymm hle hge
      have heqq := hcreated hp hpmem q hq hpvis hqv heqc
      exact absurd (congrArg Post.id heqq.symm) hqid
  · rintro ⟨hvis, hmin⟩
    have hfmem : p ∈ posts.filter Post.visible :=
      List.mem_filter.mpr ⟨hmem, hvis⟩
    have hne : posts.filter Post.visible ≠ [] :=
      List.ne_nil_of_mem hfmem
    cases hh : headVisiblePost posts with
    | none => exact absurd ((headVisiblePost_eq_none_iff posts).mp hh) hne
    | some hp =>
      obtain ⟨hpmem, hpvis, hpmin⟩ := headVisiblePost_spec posts hp hh
      refine ⟨hp, rfl, ?_⟩
      by_contra hneq
      have hlt := hmin hp hpmem hpvis (fun h => hneq h.symm)
      exact Nat.lt_irrefl _
        (Nat.lt_of_lt_of_le hlt (hpmin p hmem hvis))

/-- C9: `BasePost.mark_as_deleted` sets the post's own `deleted` flag in
every case; it marks the whole topic deleted — the bulk soft-delete of
every visible post plus the forum counter update — exactly when the
post is the earliest-created visible post of its topic at the time of
the call; and when the post is not that earliest visible post, no other
post row and not the topic's flag is changed. Row ids are assumed
unique and `created` is assumed injective on visible rows (ties in the
SQL ordering would make "the" first row ambiguous). -/
theorem post_mark_as_deleted_head_post_behavior
    (posts : List Post) (p : Post)
    (hmem : p ∈ posts)
    (hids : ∀ q1 ∈ posts, ∀ q2 ∈ posts, q1.id = q2.id → q1 = q2)
    (hcreated : ∀ q1 ∈ posts, ∀ q2 ∈ posts, q1.visible = true →
      q2.visible = true → q1.created = q2.created → q1 = q2) :
    (∀ q ∈ (Post.mark_as_deleted false posts p.id).posts,
      q.id = p.id → q.deleted = true) ∧
    ((Post.mark_as_deleted false posts p.id).topicDeleted = true ↔
      isEarliestVisible p posts) ∧
    ((Post.mark_as_deleted false posts p.id).forumUpdated = true ↔
      isEarliestVisible p posts) ∧
    (isEarliestVisible p posts →
      ∀ q ∈ posts, q.visible = true →
        { q with deleted := true } ∈
          (Post.mark_as_deleted false posts p.id).posts) ∧
    (¬ isEarliestVisible p posts →
      ∀ q ∈ posts, q.id ≠ p.id →
        q ∈ (Post.mark_as_deleted false posts p.id).posts) := by
  have hiff := head_is_self_iff posts p hmem hids hcreated
  cases hh : headVisiblePost posts with
  | none =>
    have hnotearly : ¬ isEarliestVisible p posts := by
      intro he
      obtain ⟨hp, hh', _⟩ := hiff.mpr he
      rw [hh] at hh'
      cases hh'
    simp only [Post.mark_as_deleted, hh]
    refine ⟨?_, by simp [hnotearly], by simp [hnotearly],
      fun he => absurd he hnotearly, ?_⟩
    · intro q hq hqid
      obtain ⟨q0, hq0, rfl⟩ := List.mem_map.mp hq
      by_cases h0 : q0.id = p.id
      · simp [h0]
      · simp only [show (q0.id == p.id) = false by simp [h0],
          Bool.false_eq_true, if_false] at hqid ⊢
        exact absurd hqid h0
    · intro hne q hq hqid
      refine List.mem_map.mpr ⟨q, hq, ?_⟩
      simp [hqid]
  | some hp =>
    by_cases hpid : p.id = hp.id
    · have hearly : isEarliestVisible p posts := hiff.mp ⟨hp, hh, hpid⟩
      have hbeq : (p.id == hp.id) = true := by simp [hpid]
      simp only [Post.mark_as_deleted, hh, hbeq, if_true]
      refine ⟨?_, by simp [hearly], by simp [hearly], ?_,
        fun hne => absurd hearly hne⟩
      · intro q hq hqid
        rw [topicMarkAsDeletedPosts, List.map_map] at hq
        obtain ⟨q0, hq0, rfl⟩ := List.mem_map.mp hq
        by_cases h0 : q0.visible = true
        · by_cases h1 : q0.id = p.id
          · simp [Function.comp, h0, h1]
          · simp [Function.comp, h0, h1]
        · by_cases h1 : q0.id = p.id
          · simp [Function.comp, h0, h1]
          · simp [Function.comp, h0, h1] at hqid
      · intro _ q hq hqv
        rw [topicMarkAsDeletedPosts, List.map_map]
        refine List.mem_map.mpr ⟨q, hq, ?_⟩
        by_cases h1 : q.id = p.id <;> simp [Function.comp, hqv, h1]
    · have hnotearly : ¬ isEarliestVisible p posts := by
        intro he
        obtain ⟨hp', hh', hid'⟩ := hiff.mpr he
        rw [hh] at hh'
        exact hpid ((Option.some_inj.mp hh') ▸ hid')
      have hbeq : (p.id == hp.id) = false := by simp [hpid]
      simp only [Post.mark_as_deleted, hh, hbeq, Bool.false_eq_true,
        if_false]
      refine ⟨?_, by simp [hnotearly], by simp [hnotearly],
        fun he => absurd he hnotearly, ?_⟩
      · intro q hq hqid
        obtain ⟨q0, hq0, rfl⟩ := List.mem_map.mp hq
        by_cases h0 : q0.id = p.id
        · simp [h0]
        · simp only [show (q0.id == p.id) = false by simp [h0],
            Bool.false_eq_true, if_false] at hqid ⊢
          exact absurd hqid h0
      · intro hne q hq hqid
        refine List.mem_map.mpr ⟨q, hq, ?_⟩
        simp [hqid]

/-- The earliest visible post of the C9 witness topic. -/
def w9p1 : Post :=
  { id := 1, userId := 1, created := 1, updated := none,
    on_moderation := false, deleted := false }

/-- A later visible post of the C9 witness topic. -/
def w9p2 : Post :=
  { id := 2, userId := 1, created := 2, updated := none,
    on_moderation := false, deleted := false }

/-- Witness for C9: deleting the head post of a two-post topic. -/
theorem post_mark_as_deleted_head_post_behavior_witness :
    (∀ q ∈ (Post.mark_as_deleted false [w9p1, w9p2] w9p1.id).posts,
      q.id = w9p1.id → q.deleted = true) ∧
    ((Post.mark_as_deleted false [w9p1, w9p2] w9p1.id).topicDeleted =
        true ↔ isEarliestVisible w9p1 [w9p1, w9p2]) ∧
    ((Post.mark_as_deleted false [w9p1, w9p2] w9p1.id).forumUpdated =
        true ↔ isEarliestVisible w9p1 [w9p1, w9p2]) ∧
    (isEarliestVisible w9p1 [w9p1, w9p2] →
      ∀ q ∈ [w9p1, w9p2], q.visible = true →
        { q with deleted := true } ∈
          (Post.mark_as_deleted false [w9p1, w9p2] w9p1.id).posts) ∧
    (¬ isEarliestVisible w9p1 [w9p1, w9p2] →
      ∀ q ∈ [w9p1, w9p2], q.id ≠ w9p1.id →
        q ∈ (Post.mark_as_deleted false [w9p1, w9p2] w9p1.id).posts) :=
  post_mark_as_deleted_head_post_behavior [w9p1, w9p2] w9p1
    (by decide) (by decide) (by decide)

/-- `BasePoll.poll_votes`: `answers.aggregate(Sum('user_count'))` with
`or 0` on the empty aggregate; `answers` holds the stored `user_count`
values of the poll's answers. -/
def poll_votes (answers : List Nat) : Nat := answers.sum

/-- `BasePollAnswer.votes`: `self.users.count()`; `users` holds the
answer's vote rows. -/
def votes (users : List Nat) : Nat := users.length

/-- `BasePollAnswer.votes_percent`: Python's
`int(1.0 * self.votes() / poll_votes * 100)` behind the
`poll_votes > 0` guard. The numeric expression is modelled with exact
rational arithmetic, and `int()` truncation of this nonnegative value
is the floor. -/
def votes_percent (users answers : List Nat) : Int :=
  let pv := poll_votes answers
  if pv > 0 then ⌊(1 : ℚ) * votes users / pv * 100⌋ else 0

/-- C10: `votes_percent` never divides by zero: when the poll's total
vote count is zero it returns 0, and with a positive total it returns
the integer truncation of `votes/total*100`, a value between 0 and 100
inclusive whenever the answer's votes do not exceed the total. -/
theorem votes_percent_no_div_by_zero (users answers : List Nat) :
    (poll_votes answers = 0 → votes_percent users answers = 0) ∧
    (0 < poll_votes answers →
      votes_percent users answers =
        Int.ofNat (votes users * 100 / poll_votes answers)) ∧
    (0 < poll_votes answers → votes users ≤ poll_votes answers →
      0 ≤ votes_percent users answers ∧
        votes_percent users answers ≤ 100) := by
  have key : 0 < poll_votes answers →
      votes_percent users answers =
        Int.ofNat (votes users * 100 / poll_votes answers) := by
    intro hpv
    have hx : (1 : ℚ) * (votes users) / (poll_votes answers) * 100 =
        ((votes users * 100 : ℕ) : ℚ) /
          ((poll_votes answers : ℕ) : ℚ) := by
      push_cast
      ring
    have hnn : (0 : ℚ) ≤ ((votes users * 100 : ℕ) : ℚ) /
        ((poll_votes answers : ℕ) : ℚ) :=
      div_nonneg (by positivity) (by positivity)
    rw [votes_percent]
    rw [if_pos hpv, hx, ← Int.natCast_floor_eq_floor hnn,
      Nat.floor_div_eq_div]
    rfl
  refine ⟨?_, key, ?_⟩
  · intro h0
    rw [votes_percent]
    rw [if_neg (by omega)]
  · intro hpv hle
    rw [key hpv]
    refine ⟨Int.ofNat_nonneg _, ?_⟩
    have h1 : votes users * 100 ≤ poll_votes answers * 100 :=
      Nat.mul_le_mul_right 100 hle
    have h2 : votes users * 100 / poll_votes answers ≤
        poll_votes answers * 100 / poll_votes answers :=
      Nat.div_le_div_right h1
    have h3 : poll_votes answers * 100 / poll_votes answers = 100 :=
      Nat.mul_div_cancel_left 100 hpv
    have hdiv : votes users * 100 / poll_votes answers ≤ 100 := by omega
    rw [Int.ofNat_eq_natCast]
    exact_mod_cast hdiv

/-- Witness for C10 with two votes out of three. -/
theorem votes_percent_no_div_by_zero_witness :
    votes_percent [1, 2] [] = 0 ∧
    votes_percent [1, 2] [3] =
      Int.ofNat (votes [1, 2] * 100 / poll_votes [3]) ∧
    (0 ≤ votes_percent [1, 2] [3] ∧ votes_percent [1, 2] [3] ≤ 100) :=
  ⟨(votes_percent_no_div_by_zero [1, 2] []).1 rfl,
   (votes_percent_no_div_by_zero [1, 2] [3]).2.1 (by decide),
   (votes_percent_no_div_by_zero [1, 2] [3]).2.2 (by decide) (by decide)⟩

end Pybb
